import Mathlib

/-!
Verification of the CDP helper / inspection-tool core of chrome-devtools-mcp.

The definitions below are a shallow embedding of `src/src/utils/cdpHelper.ts`
and of the inspection tool handlers that use it.  CDP round trips are made
explicit: a function that sends protocol commands returns the list of commands
it sent together with its result, and the responses it would read from the
wire are passed in as arguments.  JavaScript objects used as string-keyed
records are modelled as association lists with overwrite-on-assign semantics,
JavaScript numbers used as node ids / counters as `Nat`, and geometric
coordinates as `ℚ`.
-/

set_option maxHeartbeats 1000000

namespace ChromeMcp

/-- One CDP protocol command sent on a session: the method name plus the
numeric arguments relevant to the modelled calls (empty when irrelevant). -/
structure CdpCmd where
  method : String
  args : List Nat
  deriving DecidableEq, Repr

/-! ### Domain enable helpers (`cdpHelper.ts` lines 38-55)

The helpers are stateless `async` functions; each invocation unconditionally
sends its enable command(s).  They are embedded as the trace of commands one
invocation sends. -/

/-- Embeds `ensureDomEnabled` (lines 38-41): sends `DOM.enable`, then
`DOM.getDocument` with `depth: 0`.  No enabled state is consulted or
recorded. -/
def ensureDomEnabled : List CdpCmd :=
  [⟨"DOM.enable", []⟩, ⟨"DOM.getDocument", [0]⟩]

/-- Embeds `ensureCssEnabled` (lines 46-48): sends `CSS.enable`.  No enabled
state is consulted or recorded. -/
def ensureCssEnabled : List CdpCmd :=
  [⟨"CSS.enable", []⟩]

/-- Embeds `ensureOverlayEnabled` (lines 53-55): sends `Overlay.enable`. -/
def ensureOverlayEnabled : List CdpCmd :=
  [⟨"Overlay.enable", []⟩]

/-- Trace of `n` sequential invocations of a helper whose single-invocation
trace is `trace`. -/
def callTimes (trace : List CdpCmd) (n : Nat) : List CdpCmd :=
  (List.replicate n trace).flatten

/-- Number of commands with the given method name in a trace. -/
def countMethod (m : String) (trace : List CdpCmd) : Nat :=
  trace.countP (fun c => c.method == m)

deriving instance DecidableEq for Except

/-! ### `resolveToNodeId` (`cdpHelper.ts` lines 20-33) -/

/-- Commands sent and outcome of one `resolveToNodeId` call. -/
structure ResolveResult where
  sent : List CdpCmd
  result : Except String Nat
  deriving DecidableEq

/-- Embeds `resolveToNodeId` (lines 20-33).  The session's response to the
single `DOM.pushNodesByBackendIdsToFrontend` command is supplied as `resp`;
`none` models a response whose `nodeIds` field is absent.  Node ids are
nonnegative protocol integers, modelled as `Nat`. -/
def resolveToNodeId (backendNodeId : Nat) (resp : Option (List Nat)) :
    ResolveResult :=
  ⟨[⟨"DOM.pushNodesByBackendIdsToFrontend", [backendNodeId]⟩],
    match resp with
    | none => .error "Could not resolve backendNodeId to nodeId"
    | some nodeIds =>
      if nodeIds.length = 0 then .error "Could not resolve backendNodeId to nodeId"
      else if nodeIds.headD 0 = 0 then .error "Could not resolve backendNodeId to nodeId"
      else .ok (nodeIds.headD 0)⟩

/-! ### UID lookup prefix of the tool handlers -/

/-- Result of the external `getAXNodeByUid` lookup: an accessibility node
which may or may not carry a backend node id. -/
structure AXNode where
  backendNodeId : Option Nat
  deriving DecidableEq

/-- Commands sent and outcome of a handler prefix: either the unknown-UID
error message, or the backend node id that the handler goes on to resolve. -/
structure UidPrefixResult where
  sent : List CdpCmd
  outcome : Except String Nat
  deriving DecidableEq

/-- Error message thrown by the handlers for an unknown UID. -/
def unknownUidMessage (uid : String) : String :=
  "Could not find element with UID \"" ++ uid ++ "\". Make sure to call take_snapshot first."

/-- Shared body of the UID check: JavaScript `!axNode?.backendNodeId` is true
when the lookup returned nothing, the node has no backend id, or the id is the
falsy number 0. -/
def uidCheck (ax : Option AXNode) (uid : String) (sent : List CdpCmd) :
    UidPrefixResult :=
  match ax with
  | none => ⟨sent, .error (unknownUidMessage uid)⟩
  | some axNode =>
    match axNode.backendNodeId with
    | none => ⟨sent, .error (unknownUidMessage uid)⟩
    | some b =>
      if b = 0 then ⟨sent, .error (unknownUidMessage uid)⟩ else ⟨sent, .ok b⟩

/-- Embeds the `inspect_element` handler (lines 550-563) up to and including
the UID check: `ensureDomEnabled` is awaited first, then `getAXNodeByUid` is
consulted and the unknown-UID error thrown when it yields no usable backend
node id.  Only then would the handler resolve the node. -/
def inspectElementPrefix (getAXNodeByUid : String → Option AXNode)
    (uid : String) : UidPrefixResult :=
  uidCheck (getAXNodeByUid uid) uid ensureDomEnabled

/-- Embeds the `get_element_styles` handler (lines 660-674) up to and
including the UID check: `ensureDomEnabled` and `ensureCssEnabled` are awaited
first, then the lookup happens. -/
def getElementStylesPrefix (getAXNodeByUid : String → Option AXNode)
    (uid : String) : UidPrefixResult :=
  uidCheck (getAXNodeByUid uid) uid (ensureDomEnabled ++ ensureCssEnabled)

/-! ### `get_dom_tree` depth schema (`cdpHelper.ts` lines 1103-1110) -/

/-- Embeds the zod schema of the `depth` parameter of `get_dom_tree`:
`zod.number().int().min(1).max(10)`.  Integer inputs are modelled as `Int`;
the schema accepts a value exactly when both bounds hold. -/
def getDomTreeDepthAccepts (d : Int) : Bool :=
  1 ≤ d && d ≤ 10

/-! ### `formatQuad` (`cdpHelper.ts` lines 60-72) -/

/-- Axis-aligned rectangle returned by `formatQuad`. -/
structure Rect where
  x : ℚ
  y : ℚ
  width : ℚ
  height : ℚ
  deriving DecidableEq, Repr

/-- Embeds `formatQuad` (lines 60-72).  A quad is an array of 8 numbers
`x1,y1, x2,y2, x3,y3, x4,y4` (the four corners); the result is the bounding
rectangle computed with `Math.min` / `Math.max` over the alternating
coordinates. -/
def formatQuad (quad : List ℚ) : Rect :=
  let q := fun i => quad.getD i 0
  let x := min (q 0) (min (q 2) (min (q 4) (q 6)))
  let y := min (q 1) (min (q 3) (min (q 5) (q 7)))
  let width := max (q 0) (max (q 2) (max (q 4) (q 6))) - x
  let height := max (q 1) (max (q 3) (max (q 5) (q 7))) - y
  ⟨x, y, width, height⟩

/-- Flattens four corner points into the 8-number quad array the source
consumes. -/
def quadOf (p1 p2 p3 p4 : ℚ × ℚ) : List ℚ :=
  [p1.1, p1.2, p2.1, p2.2, p3.1, p3.2, p4.1, p4.2]

/-! ### `cssPropertiesToObject` (`cdpHelper.ts` lines 77-89) -/

/-- One entry of a CDP `CSSProperty` array: name, value, and the optional
`disabled` flag (JavaScript `undefined` collapses to `false`, both being
falsy). -/
structure CSSProp where
  name : String
  value : String
  disabled : Bool
  deriving DecidableEq

/-- JavaScript object assignment `r[k] = v` on a string-keyed record: the
entry is updated in place when the key exists, appended otherwise. -/
def recordSet {α : Type} (r : List (String × α)) (k : String) (v : α) :
    List (String × α) :=
  if r.any (fun e => e.1 == k) then
    r.map (fun e => if e.1 == k then (k, v) else e)
  else r ++ [(k, v)]

/-- Loop body of `cssPropertiesToObject`: `continue` on a disabled entry, a
falsy (empty) value, or - when a filter list is supplied - a name not in the
filter; otherwise assign `result[prop.name] = prop.value`. -/
def cssPropsStep (filterProps : Option (List String))
    (result : List (String × String)) (prop : CSSProp) :
    List (String × String) :=
  if prop.disabled then result
  else if prop.value = "" then result
  else
    match filterProps with
    | some fp =>
      if prop.name ∈ fp then recordSet result prop.name prop.value else result
    | none => recordSet result prop.name prop.value

/-- Embeds `cssPropertiesToObject` (lines 77-89): folds the property array
into a record with `cssPropsStep`. -/
def cssPropertiesToObject (properties : List CSSProp)
    (filterProps : Option (List String)) : List (String × String) :=
  properties.foldl (cssPropsStep filterProps) []

/-- An entry of the property array survives into the output of
`cssPropertiesToObject` exactly when it is not disabled, has a truthy value,
and passes the filter when one is supplied. -/
def cssQualifies (filterProps : Option (List String)) (p : CSSProp) : Prop :=
  p.disabled = false ∧ p.value ≠ "" ∧ ∀ fp, filterProps = some fp → p.name ∈ fp

/-- Key set of a record. -/
def recordKeys {α : Type} (r : List (String × α)) : List String :=
  r.map Prod.fst

/-! ### Attribute projection shared by the element-reporting tools

The handlers of `inspect_element` (lines 573-616), `query_selector`
(lines 953-964), `get_element_at_position` (lines 1518-1537) and `search_dom`
(lines 1617-1636) all contain the same fragment: the flat
`DOM.getAttributes` array is folded into a record two entries at a time, and
the output fields are `id: attrMap['id'] || null` and
`className: attrMap['class'] || null`. -/

/-- Builds `attrMap` from the flat `[name1, value1, name2, value2, ...]`
attribute array (`for (let i = 0; i < attributes.length; i += 2)`).  A
trailing odd entry gets JavaScript `undefined` as its value, which is falsy
and dropped from JSON output exactly like an empty string, so it is modelled
as `""`. -/
def buildAttrMap : List String → List (String × String) :=
  go []
where
  /-- Processes the array two entries at a time, assigning into the record. -/
  go : List (String × String) → List String → List (String × String)
  | acc, [] => acc
  | acc, [k] => recordSet acc k ""
  | acc, k :: v :: rest => go (recordSet acc k v) rest

/-- JavaScript `value || null` on an attribute lookup: an absent attribute and
an empty-string attribute both become `null`. -/
def jsOrNull (v : Option String) : Option String :=
  match v with
  | some s => if s = "" then none else some s
  | none => none

/-- Embeds JavaScript `String.prototype.toLowerCase()` (as used on node
names): lower-case every character.  Defined by a structural map over the
characters so that it evaluates inside the kernel (`String.toLower` itself is
defined by well-founded recursion on byte positions and does not reduce). -/
def jsToLower (s : String) : String :=
  ⟨s.data.map Char.toLower⟩

/-- The `id`/`className` pair the four element-reporting tools put in their
output for a node with the given flat attribute array. -/
def elementIdClassName (attributes : List String) :
    Option String × Option String :=
  let attrMap := buildAttrMap attributes
  (jsOrNull (List.lookup "id" attrMap), jsOrNull (List.lookup "class" attrMap))

/-! ### Tree Walker: `formatNode` inside `get_dom_tree`
(`cdpHelper.ts` lines 1161-1191) -/

/-- A DOM node as described by `DOM.describeNode`: its `nodeType`, `nodeName`,
flat attribute array, and children (an absent `children` field behaves like an
empty array, both producing no `children` in the output). -/
inductive DomNode : Type where
  | mk : Nat → String → List String → List DomNode → DomNode

/-- Field `nodeType` of a described DOM node. -/
def DomNode.nodeType : DomNode → Nat
  | .mk t _ _ _ => t

/-- Field `nodeName` of a described DOM node. -/
def DomNode.nodeName : DomNode → String
  | .mk _ nm _ _ => nm

/-- Field `attributes` of a described DOM node. -/
def DomNode.attributes : DomNode → List String
  | .mk _ _ attrs _ => attrs

/-- Field `children` of a described DOM node. -/
def DomNode.children : DomNode → List DomNode
  | .mk _ _ _ cs => cs

/-- Output node of the tree walker: `{tag, id?, class?, children?}`.  The
`class` field is named `cls` because `class` is reserved in Lean. -/
inductive TreeNode : Type where
  | mk : String → Option String → Option String → Option (List TreeNode) → TreeNode

/-- Field `tag` of a formatted tree node. -/
def TreeNode.tag : TreeNode → String
  | .mk t _ _ _ => t

/-- Field `id` of a formatted tree node. -/
def TreeNode.id : TreeNode → Option String
  | .mk _ i _ _ => i

/-- Field `class` of a formatted tree node. -/
def TreeNode.cls : TreeNode → Option String
  | .mk _ _ c _ => c

/-- Field `children` of a formatted tree node. -/
def TreeNode.children : TreeNode → Option (List TreeNode)
  | .mk _ _ _ cs => cs

/-- Embeds `formatNode` (lines 1161-1191), the recursive formatter of
`get_dom_tree`: prune when the depth bound is exceeded or the node is a text
(3) or comment (8) node; project only the `id` and `class` attributes
(omitting falsy values); recurse into children only while
`currentDepth < maxDepth`, dropping pruned (`null`) children and omitting the
`children` field when no child survives. -/
def formatNode (maxDepth : Nat) : DomNode → Nat → Option TreeNode
  | .mk ntype nname attrs cs, currentDepth =>
    if maxDepth < currentDepth then none
    else if ntype = 3 ∨ ntype = 8 then none
    else
      let attrMap := buildAttrMap attrs
      let kids : List TreeNode :=
        if currentDepth < maxDepth then
          (cs.attach.map (fun c => formatNode maxDepth c.1 (currentDepth + 1))).filterMap id
        else []
      some (.mk (jsToLower nname) (jsOrNull (List.lookup "id" attrMap))
        (jsOrNull (List.lookup "class" attrMap))
        (if 0 < kids.length then some kids else none))
decreasing_by
  have := List.sizeOf_lt_of_mem c.2
  simp
  omega

/-- Depth of the deepest node of a formatted tree below its root. -/
def treeHeight : TreeNode → Nat
  | .mk _ _ _ none => 0
  | .mk _ _ _ (some cs) => (cs.attach.map (fun c => treeHeight c.1)).foldr max 0 + 1
decreasing_by
  have := List.sizeOf_lt_of_mem c.2
  simp
  omega

/-- Every `children` field present anywhere in a formatted tree holds a
non-empty list. -/
def childrenOk : TreeNode → Prop
  | .mk _ _ _ none => True
  | .mk _ _ _ (some cs) => cs ≠ [] ∧ ∀ c ∈ cs.attach, childrenOk c.1
decreasing_by
  have := List.sizeOf_lt_of_mem c.2
  simp
  omega

/-! ### Snapshot Capturer: `capture_dom_snapshot` formatting
(`cdpHelper.ts` lines 1281-1331) -/

/-- The `nodes` component of one `DOMSnapshot.captureSnapshot` document:
string-table indices of the node names and, optionally, per-node flat
attribute index arrays. -/
structure SnapNodes where
  nodeName : Option (List Nat)
  attributes : Option (List (List Nat))
  deriving DecidableEq

/-- The `layout` component of a snapshot document: optional per-node bound
arrays `[x, y, width, height]`. -/
structure SnapLayout where
  bounds : Option (List (List ℚ))
  deriving DecidableEq

/-- One document of a `DOMSnapshot.captureSnapshot` response. -/
structure SnapDocument where
  documentURL : Nat
  nodes : SnapNodes
  layout : SnapLayout
  deriving DecidableEq

/-- The full `DOMSnapshot.captureSnapshot` response: documents plus the shared
string table. -/
structure DOMSnapshotResult where
  documents : List SnapDocument
  strings : List String
  deriving DecidableEq

/-- One emitted node of the formatted snapshot. -/
structure SnapNodeOut where
  index : Nat
  name : String
  attributes : List (String × String)
  bounds : Option (Option ℚ × Option ℚ × Option ℚ × Option ℚ)
  deriving DecidableEq

/-- One emitted document of the formatted snapshot. -/
structure SnapDocOut where
  documentIndex : Nat
  url : String
  nodeCount : Nat
  nodes : List SnapNodeOut
  deriving DecidableEq

/-- The JSON document `capture_dom_snapshot` emits. -/
structure SnapshotOut where
  documentCount : Nat
  documents : List SnapDocOut
  note : Option String
  deriving DecidableEq

/-- JavaScript `strings[idx]?.toLowerCase() || ''`: out-of-range and empty
entries both collapse to the empty string. -/
def snapName (strings : List String) (idx : Nat) : String :=
  match strings.get? idx with
  | some s => jsToLower s
  | none => ""

/-- Builds the attribute record of one snapshot node from its flat index
array: `attrs[strings[keyIdx]] = strings[valIdx]` whenever both strings exist
and are truthy (non-empty). -/
def snapAttrs (strings : List String) : List Nat → List (String × String) → List (String × String)
  | kIdx :: vIdx :: rest, acc =>
    (match strings.get? kIdx, strings.get? vIdx with
     | some k, some v =>
       if k ≠ "" ∧ v ≠ "" then snapAttrs strings rest (recordSet acc k v)
       else snapAttrs strings rest acc
     | _, _ => snapAttrs strings rest acc)
  | [_], acc => acc
  | [], acc => acc

/-- Collects the nodes of one document: iterate `i` while
`i < nodeNames.length && i < 100`, skip nodes whose lowercased name is empty,
`#text` or `#comment`, and attach the attribute record and the layout bounds
entry (when one exists at index `i`). -/
def snapCollect (strings : List String) (nodeNames : List Nat)
    (nodeAttrs : Option (List (List Nat))) (boundsL : List (List ℚ)) :
    List SnapNodeOut :=
  ((nodeNames.take 100).enum).foldl
    (fun nodes p =>
      let name := snapName strings p.2
      if name = "" ∨ name = "#text" ∨ name = "#comment" then nodes
      else
        let attrPairs := match nodeAttrs with
          | some l => l.getD p.1 []
          | none => []
        nodes ++ [⟨p.1, name, snapAttrs strings attrPairs [],
          (boundsL.get? p.1).map (fun bl => (bl.get? 0, bl.get? 1, bl.get? 2, bl.get? 3))⟩])
    []

/-- Loop body of the document loop of `capture_dom_snapshot`: documents
without a `nodeName` array are skipped (`continue`), each kept document
reports its raw `nodeCount` and its collected nodes capped by
`nodes.slice(0, 50)`. -/
def snapDocStep (strings : List String) (documents : List SnapDocOut)
    (p : Nat × SnapDocument) : List SnapDocOut :=
  match p.2.nodes.nodeName with
  | none => documents
  | some nodeNames =>
    let nodes := snapCollect strings nodeNames p.2.nodes.attributes
      ((p.2.layout.bounds).getD [])
    documents ++ [⟨p.1, (strings.get? p.2.documentURL).getD "",
      nodeNames.length, nodes.take 50⟩]

/-- Embeds the formatting loop of `capture_dom_snapshot` (lines 1281-1331):
fold `snapDocStep` over the indexed documents, then set the `note` field from
`documents[0]?.nodeCount > 50`. -/
def captureDomSnapshotFormat (snapshot : DOMSnapshotResult) : SnapshotOut :=
  let documents := (snapshot.documents.enum).foldl
    (snapDocStep snapshot.strings) []
  ⟨documents.length, documents,
    match documents.head? with
    | some d =>
      if 50 < d.nodeCount then some "Output limited to first 50 elements per document"
      else none
    | none => none⟩

/-- Number of nodes of a document that qualify for emission (non-empty name
that is neither `#text` nor `#comment`, within the 100-index scan): the
length `snapCollect` reaches before the `slice(0, 50)` cap. -/
def snapQualifying (strings : List String) (nodeNames : List Nat) : Nat :=
  ((nodeNames.take 100).map (fun idx => snapName strings idx)).countP
    (fun name => !(name = "" ∨ name = "#text" ∨ name = "#comment"))

/-- Concrete two-document snapshot: the first document holds a single element
node, the second holds 51 element nodes (all pointing at string-table index 0,
the name `div`). -/
def snapshotCex : DOMSnapshotResult :=
  ⟨[⟨1, ⟨some [0], none⟩, ⟨none⟩⟩,
    ⟨1, ⟨some (List.replicate 51 0), none⟩, ⟨none⟩⟩],
   ["div", "url"]⟩

/-- Concrete one-document snapshot with a single element node. -/
def snapshotWit : DOMSnapshotResult :=
  ⟨[⟨1, ⟨some [0], none⟩, ⟨none⟩⟩], ["div", "url"]⟩

/-! ### Comparator: `compare_elements` (`cdpHelper.ts` lines 1993-2005) -/

/-- Default property list of `compare_elements` (lines 1947-1969), used when
the caller supplies none. -/
def defaultProps : List String :=
  ["display", "position", "width", "height", "margin", "padding", "border",
   "color", "background-color", "font-family", "font-size", "font-weight",
   "line-height", "text-align", "flex-direction", "justify-content",
   "align-items", "gap", "border-radius", "box-shadow", "opacity"]

/-- Builds `styleMap1`/`styleMap2` (lines 1978-1991): the computed-style
entries whose name is in the compared property list, as a record. -/
def buildStyleMap (propsToCompare : List String)
    (computedStyle : List (String × String)) : List (String × String) :=
  computedStyle.foldl
    (fun m e => if e.1 ∈ propsToCompare then recordSet m e.1 e.2 else m) []

/-- JavaScript `styleMap[prop] || ''`: the element's value for a property,
normalized to the empty string when absent (or stored empty). -/
def normVal (propsToCompare : List String)
    (computedStyle : List (String × String)) (p : String) : String :=
  (List.lookup p (buildStyleMap propsToCompare computedStyle)).getD ""

/-- Loop body of the comparison loop (lines 1996-2004): differing normalized
values are recorded under `differences` as the pair `{element1, element2}`,
equal truthy values append the property to `same`, and equal falsy (empty)
values record nothing. -/
def compareStep (m1 m2 : String → String)
    (acc : List (String × (String × String)) × List String) (prop : String) :
    List (String × (String × String)) × List String :=
  let val1 := m1 prop
  let val2 := m2 prop
  if val1 ≠ val2 then (recordSet acc.1 prop (val1, val2), acc.2)
  else if val1 ≠ "" then (acc.1, acc.2 ++ [prop])
  else acc

/-- Embeds the comparison loop (lines 1993-2005): fold `compareStep` over the
compared property list, starting from an empty `differences` record and an
empty `same` list. -/
def comparePropsLoop (props : List String) (m1 m2 : String → String) :
    List (String × (String × String)) × List String :=
  props.foldl (compareStep m1 m2) ([], [])

/-- The `differences` record and `same` list `compare_elements` reports for
two elements with the given computed styles, over the given (supplied or
default) property list. -/
def compareElements (props : List String)
    (cs1 cs2 : List (String × String)) :
    List (String × (String × String)) × List String :=
  comparePropsLoop props (normVal props cs1) (normVal props cs2)

/-- The property list actually compared: the caller's list when supplied,
`defaultProps` otherwise (line 1970). -/
def propsToCompare (properties : Option (List String)) : List String :=
  properties.getD defaultProps

/-! ## Helper lemmas -/

theorem countMethod_append (m : String) (t1 t2 : List CdpCmd) :
    countMethod m (t1 ++ t2) = countMethod m t1 + countMethod m t2 := by
  simp [countMethod, List.countP_append]

theorem callTimes_succ (tr : List CdpCmd) (k : Nat) :
    callTimes tr (k + 1) = tr ++ callTimes tr k := by
  simp [callTimes, List.replicate_succ]

theorem lookup_cons_self {α : Type} (k : String) (v : α) (r : List (String × α)) :
    List.lookup k ((k, v) :: r) = some v := by
  simp [List.lookup_cons]

theorem lookup_cons_ne {α : Type} {x k : String} (h : x ≠ k) (v : α)
    (r : List (String × α)) :
    List.lookup x ((k, v) :: r) = List.lookup x r := by
  rw [List.lookup_cons]
  rw [show (x == k) = false from beq_eq_false_iff_ne.mpr h]

theorem recordKeys_cons {α : Type} (e : String × α) (r : List (String × α)) :
    recordKeys (e :: r) = e.1 :: recordKeys r := rfl

theorem any_key_iff {α : Type} (r : List (String × α)) (k : String) :
    r.any (fun e => e.1 == k) = true ↔ k ∈ recordKeys r := by
  simp [recordKeys, List.any_eq_true, List.mem_map]

theorem lookup_eq_none_of_not_mem {α : Type} {r : List (String × α)} {x : String}
    (h : x ∉ recordKeys r) : List.lookup x r = none := by
  induction r with
  | nil => rfl
  | cons e r ih =>
    obtain ⟨ek, ev⟩ := e
    have h1 : ¬ x = ek := by
      intro hh
      exact h (by rw [recordKeys_cons]; exact List.mem_cons.mpr (Or.inl hh))
    rw [lookup_cons_ne h1]
    refine ih (fun hm => h ?_)
    rw [recordKeys_cons]
    exact List.mem_cons.mpr (Or.inr hm)

theorem map_replace_keys {α : Type} (r : List (String × α)) (k : String) (v : α) :
    recordKeys (r.map fun e => if e.1 == k then (k, v) else e) = recordKeys r := by
  unfold recordKeys
  rw [List.map_map]
  apply List.map_congr_left
  intro e _
  by_cases he : (e.1 == k) = true
  · have h1 : e.1 = k := eq_of_beq he
    show (if (e.1 == k) = true then (k, v) else e).1 = e.1
    rw [if_pos he]
    exact h1.symm
  · show (if (e.1 == k) = true then (k, v) else e).1 = e.1
    rw [if_neg he]

theorem mem_recordKeys_recordSet {α : Type} (r : List (String × α)) (k : String)
    (v : α) (x : String) :
    x ∈ recordKeys (recordSet r k v) ↔ x ∈ recordKeys r ∨ x = k := by
  unfold recordSet
  by_cases h : r.any (fun e => e.1 == k) = true
  · rw [if_pos h, map_replace_keys]
    have hk : k ∈ recordKeys r := (any_key_iff r k).mp h
    constructor
    · exact Or.inl
    · rintro (hx | rfl)
      · exact hx
      · exact hk
  · rw [if_neg h]
    simp [recordKeys]

theorem lookup_map_replace {α : Type} (r : List (String × α)) (k x : String) (v : α) :
    List.lookup x (r.map fun e => if e.1 == k then (k, v) else e) =
      if x = k then (if k ∈ recordKeys r then some v else none)
      else List.lookup x r := by
  induction r with
  | nil => simp [recordKeys]
  | cons e r ih =>
    obtain ⟨ek, ev⟩ := e
    simp only [List.map_cons]
    by_cases he : (ek == k) = true
    · rw [if_pos he]
      have h1 : ek = k := eq_of_beq he
      by_cases hx : x = k
      · have hm : k ∈ recordKeys ((ek, ev) :: r) := by
          rw [recordKeys_cons]
          exact List.mem_cons.mpr (Or.inl h1.symm)
        rw [hx, lookup_cons_self, if_pos rfl, if_pos hm]
      · have hxe : ¬ x = ek := fun hh => hx (hh.trans h1)
        rw [lookup_cons_ne hx, ih, if_neg hx, if_neg hx, lookup_cons_ne hxe]
    · rw [if_neg he]
      have h1 : ¬ ek = k := fun hh => he (by simp [hh])
      by_cases hx : x = ek
      · rw [hx, lookup_cons_self, if_neg h1, lookup_cons_self]
      · rw [lookup_cons_ne hx, ih]
        by_cases hxk : x = k
        · rw [if_pos hxk, if_pos hxk]
          have hke : ¬ k = ek := fun hh => h1 hh.symm
          have hmem : (k ∈ recordKeys ((ek, ev) :: r)) ↔ k ∈ recordKeys r := by
            rw [recordKeys_cons]
            constructor
            · intro hh
              rcases List.mem_cons.mp hh with hh | hh
              · exact absurd hh hke
              · exact hh
            · exact fun hh => List.mem_cons.mpr (Or.inr hh)
          by_cases hr : k ∈ recordKeys r
          · rw [if_pos hr, if_pos (hmem.mpr hr)]
          · rw [if_neg hr, if_neg (fun hh => hr (hmem.mp hh))]
        · rw [if_neg hxk, if_neg hxk, lookup_cons_ne hx]

theorem lookup_recordSet {α : Type} (r : List (String × α)) (k x : String) (v : α) :
    List.lookup x (recordSet r k v) = if x = k then some v else List.lookup x r := by
  unfold recordSet
  by_cases h : r.any (fun e => e.1 == k) = true
  · rw [if_pos h, lookup_map_replace]
    have hk : k ∈ recordKeys r := (any_key_iff r k).mp h
    by_cases hx : x = k
    · rw [if_pos hx, if_pos hx, if_pos hk]
    · rw [if_neg hx, if_neg hx]
  · rw [if_neg h]
    have hk : k ∉ recordKeys r := fun hm => h ((any_key_iff r k).mpr hm)
    induction r with
    | nil =>
      by_cases hx : x = k
      · rw [List.nil_append, hx, lookup_cons_self, if_pos rfl]
      · rw [List.nil_append, lookup_cons_ne hx, if_neg hx]
    | cons e r ih =>
      obtain ⟨ek, ev⟩ := e
      have hek : k ∉ recordKeys r := by
        intro hm
        exact hk (by rw [recordKeys_cons]; exact List.mem_cons.mpr (Or.inr hm))
      have hane : ¬ r.any (fun e => e.1 == k) = true :=
        fun ha => hek ((any_key_iff r k).mp ha)
      by_cases hx : x = ek
      · have hne : ¬ ek = k := by
          intro hh
          exact hk (by rw [recordKeys_cons, hh]; exact List.mem_cons.mpr (Or.inl rfl))
        rw [hx, List.cons_append, lookup_cons_self, lookup_cons_self, if_neg hne]
      · rw [List.cons_append, lookup_cons_ne hx, lookup_cons_ne hx]
        exact ih hane hek

theorem cssProps_keys_mem (properties : List CSSProp)
    (filterProps : Option (List String)) (acc : List (String × String))
    (x : String) :
    x ∈ recordKeys (properties.foldl (cssPropsStep filterProps) acc) ↔
      x ∈ recordKeys acc ∨
        ∃ p ∈ properties, p.name = x ∧ cssQualifies filterProps p := by
  induction properties generalizing acc with
  | nil => simp
  | cons p ps ih =>
    rw [List.foldl_cons, ih]
    have hstep : x ∈ recordKeys (cssPropsStep filterProps acc p) ↔
        x ∈ recordKeys acc ∨ (p.name = x ∧ cssQualifies filterProps p) := by
      unfold cssPropsStep cssQualifies
      by_cases hd : p.disabled = true
      · rw [if_pos hd]
        simp [hd]
      · rw [if_neg hd]
        by_cases hv : p.value = ""
        · rw [if_pos hv]
          simp [hv]
        · rw [if_neg hv]
          cases filterProps with
          | none =>
            show x ∈ recordKeys (recordSet acc p.name p.value) ↔ _
            rw [mem_recordKeys_recordSet]
            constructor
            · rintro (hh | hh)
              · exact Or.inl hh
              · exact Or.inr ⟨hh.symm, Bool.eq_false_iff.mpr hd, hv,
                  fun fp' hfp' => by cases hfp'⟩
            · rintro (hh | ⟨hn, _⟩)
              · exact Or.inl hh
              · exact Or.inr hn.symm
          | some fp =>
            show x ∈ recordKeys
              (if p.name ∈ fp then recordSet acc p.name p.value else acc) ↔ _
            by_cases hf : p.name ∈ fp
            · rw [if_pos hf, mem_recordKeys_recordSet]
              constructor
              · rintro (hh | hh)
                · exact Or.inl hh
                · exact Or.inr ⟨hh.symm, Bool.eq_false_iff.mpr hd, hv,
                    fun fp' hfp' => (Option.some.inj hfp') ▸ hf⟩
              · rintro (hh | ⟨hn, _⟩)
                · exact Or.inl hh
                · exact Or.inr hn.symm
            · rw [if_neg hf]
              constructor
              · exact Or.inl
              · rintro (hh | ⟨hn, _, _, hfp⟩)
                · exact hh
                · exact absurd (hn ▸ hfp fp rfl) hf
    rw [hstep]
    constructor
    · rintro ((hh | hh) | ⟨q, hq, hQ⟩)
      · exact Or.inl hh
      · exact Or.inr ⟨p, List.mem_cons.mpr (Or.inl rfl), hh⟩
      · exact Or.inr ⟨q, List.mem_cons.mpr (Or.inr hq), hQ⟩
    · rintro (hh | ⟨q, hq, hQ⟩)
      · exact Or.inl (Or.inl hh)
      · rcases List.mem_cons.mp hq with rfl | hq2
        · exact Or.inl (Or.inr hQ)
        · exact Or.inr ⟨q, hq2, hQ⟩

/-! ## C1: domain enabling is NOT idempotent per session -/

/-- C1, counterexample.  The claim says two sequential calls of
`ensureCssEnabled` issue exactly one `CSS.enable` protocol call; in the code
the helper is stateless and the concatenated trace of two calls contains
`CSS.enable` twice, not once. -/
theorem ensureCssEnabled_twice_sends_twice :
    ¬ countMethod "CSS.enable" (ensureCssEnabled ++ ensureCssEnabled) = 1 := by
  decide

/-- C1, amended claim: the enable helpers are stateless and re-issue their
enable command on every invocation, so `n` sequential calls of
`ensureCssEnabled` issue `n` `CSS.enable` commands and `n` sequential calls of
`ensureDomEnabled` issue `n` `DOM.enable` commands; no enabled state is
recorded or observed. -/
theorem ensure_enabled_reissues_every_call (n : Nat) :
    countMethod "CSS.enable" (callTimes ensureCssEnabled n) = n ∧
    countMethod "DOM.enable" (callTimes ensureDomEnabled n) = n := by
  induction n with
  | zero => constructor <;> rfl
  | succ k ih =>
    rw [callTimes_succ, callTimes_succ, countMethod_append, countMethod_append,
      ih.1, ih.2]
    have h1 : countMethod "CSS.enable" ensureCssEnabled = 1 := by decide
    have h2 : countMethod "DOM.enable" ensureDomEnabled = 1 := by decide
    constructor <;> omega

/-! ## C2: unknown UID fails fast, but only after the domain enables -/

/-- C2, counterexample.  With a lookup table that knows no UIDs,
`inspect_element` does raise the unknown-UID error, but only after
`ensureDomEnabled` has already sent CDP commands on the session, refuting the
claim that zero CDP protocol calls precede the failure. -/
theorem inspectElement_unknownUid_after_enable :
    (inspectElementPrefix (fun _ => none) "42_5").outcome =
      .error (unknownUidMessage "42_5") ∧
    (inspectElementPrefix (fun _ => none) "42_5").sent ≠ [] := by
  constructor
  · rfl
  · decide

/-- C2, amended claim: whenever `getAXNodeByUid` returns `undefined` or an
entry without a usable (nonzero) `backendNodeId`, the `inspect_element` and
`get_element_styles` handlers fail with the unknown-UID error before any
UID-dependent CDP call; the commands sent before the failure are exactly the
domain-enable commands the handler issues before consulting the lookup
(`DOM.enable` and `DOM.getDocument` for `inspect_element`, plus `CSS.enable`
for `get_element_styles`), not zero commands. -/
theorem unknownUid_fails_after_enables (lookup : String → Option AXNode)
    (uid : String)
    (h : (lookup uid).bind AXNode.backendNodeId = none ∨
      (lookup uid).bind AXNode.backendNodeId = some 0) :
    (inspectElementPrefix lookup uid).outcome = .error (unknownUidMessage uid) ∧
    (inspectElementPrefix lookup uid).sent = ensureDomEnabled ∧
    (getElementStylesPrefix lookup uid).outcome = .error (unknownUidMessage uid) ∧
    (getElementStylesPrefix lookup uid).sent = ensureDomEnabled ++ ensureCssEnabled := by
  rcases hl : lookup uid with _ | ax
  · simp [inspectElementPrefix, getElementStylesPrefix, uidCheck, hl]
  · rcases hb : ax.backendNodeId with _ | b
    · simp [inspectElementPrefix, getElementStylesPrefix, uidCheck, hl, hb]
    · rw [hl] at h
      simp [hb] at h
      simp [inspectElementPrefix, getElementStylesPrefix, uidCheck, hl, hb, h]

/-- Witness for the amended C2 at a concrete empty lookup table. -/
theorem unknownUid_fails_after_enables_witness :
    (inspectElementPrefix (fun _ => none) "7_3").outcome =
      .error (unknownUidMessage "7_3") ∧
    (inspectElementPrefix (fun _ => none) "7_3").sent = ensureDomEnabled ∧
    (getElementStylesPrefix (fun _ => none) "7_3").outcome =
      .error (unknownUidMessage "7_3") ∧
    (getElementStylesPrefix (fun _ => none) "7_3").sent =
      ensureDomEnabled ++ ensureCssEnabled :=
  unknownUid_fails_after_enables (fun _ => none) "7_3" (Or.inl rfl)

/-! ## C3: the get_dom_tree depth schema accepts 1-10, not 1-20 -/

/-- C3, counterexample.  Depth 11 lies inside the claimed 1-20 acceptance
range, but the caller-facing zod schema of `get_dom_tree`
(`.min(1).max(10)`) rejects it. -/
theorem getDomTreeDepth_rejects_eleven :
    (1 ≤ (11 : Int) ∧ (11 : Int) ≤ 20) ∧ getDomTreeDepthAccepts 11 = false := by
  decide

/-- C3, amended claim: the tree-walking tool's depth parameter accepts every
integer from 1 to 10 inclusive, and every value outside that range is
rejected by the caller-facing schema. -/
theorem getDomTreeDepth_accepts_iff (d : Int) :
    getDomTreeDepthAccepts d = true ↔ 1 ≤ d ∧ d ≤ 10 := by
  simp [getDomTreeDepthAccepts]

/-! ## C5: resolveToNodeId -/

/-- C5: `resolveToNodeId` always sends `DOM.pushNodesByBackendIdsToFrontend`
with exactly the single-element batch `[backendNodeId]`; it throws exactly
when the returned node-id list is absent, empty, or has zero as its first
element, and otherwise returns the first element, a strictly positive node
id. -/
theorem resolveToNodeId_spec (b : Nat) (resp : Option (List Nat)) :
    (resolveToNodeId b resp).sent =
      [⟨"DOM.pushNodesByBackendIdsToFrontend", [b]⟩] ∧
    ((∃ e, (resolveToNodeId b resp).result = .error e) ↔
      resp = none ∨ ∃ l, resp = some l ∧ (l = [] ∨ l.headD 0 = 0)) ∧
    ∀ k, (resolveToNodeId b resp).result = .ok k →
      (∃ l, resp = some l ∧ l.headD 0 = k) ∧ 0 < k := by
  refine ⟨rfl, ?_, ?_⟩
  · rcases resp with _ | (_ | ⟨h, t⟩)
    · simp [resolveToNodeId]
    · simp [resolveToNodeId]
    · by_cases hh : h = 0
      · subst hh
        simp [resolveToNodeId]
      · simp [resolveToNodeId, hh]
  · intro k hk
    rcases resp with _ | (_ | ⟨h, t⟩)
    · simp [resolveToNodeId] at hk
    · simp [resolveToNodeId] at hk
    · by_cases hh : h = 0
      · subst hh
        simp [resolveToNodeId] at hk
      · simp [resolveToNodeId, hh] at hk
        subst hk
        exact ⟨⟨h :: t, rfl, rfl⟩, Nat.pos_of_ne_zero hh⟩

/-- Witness for C5 at backend node id 7 and response `[42]`. -/
theorem resolveToNodeId_spec_witness :
    (∃ l, (some [42] : Option (List Nat)) = some l ∧ l.headD 0 = 42) ∧
    0 < 42 :=
  (resolveToNodeId_spec 7 (some [42])).2.2 42 rfl

/-! ## C8: cssPropertiesToObject filtering -/

/-- C8: for every property array, `cssPropertiesToObject` with a filter list
returns a record whose key set is a subset of the filter list; with no filter
its key set is exactly the names of the non-disabled, non-empty-valued
entries; and a disabled or empty-valued property never appears in the output
(a name appears only when some non-disabled, non-empty entry carries it). -/
theorem cssPropertiesToObject_spec (properties : List CSSProp)
    (fp : List String) (x : String) :
    (x ∈ recordKeys (cssPropertiesToObject properties (some fp)) → x ∈ fp) ∧
    (x ∈ recordKeys (cssPropertiesToObject properties none) ↔
      ∃ p ∈ properties, p.name = x ∧ p.disabled = false ∧ p.value ≠ "") ∧
    (∀ filterProps : Option (List String),
      x ∈ recordKeys (cssPropertiesToObject properties filterProps) →
        ∃ p ∈ properties, p.name = x ∧ p.disabled = false ∧ p.value ≠ "") := by
  refine ⟨?_, ?_, ?_⟩
  · intro hx
    unfold cssPropertiesToObject at hx
    rw [cssProps_keys_mem] at hx
    rcases hx with hx | ⟨p, _, hname, hq⟩
    · simp [recordKeys] at hx
    · exact hname ▸ hq.2.2 fp rfl
  · unfold cssPropertiesToObject
    rw [cssProps_keys_mem]
    constructor
    · rintro (hx | ⟨p, hp, hn, hq⟩)
      · simp [recordKeys] at hx
      · exact ⟨p, hp, hn, hq.1, hq.2.1⟩
    · rintro ⟨p, hp, hn, hd, hv⟩
      exact Or.inr ⟨p, hp, hn, hd, hv, fun fp' hfp' => by cases hfp'⟩
  · intro f hx
    unfold cssPropertiesToObject at hx
    rw [cssProps_keys_mem] at hx
    rcases hx with hx | ⟨p, hp, hn, hq⟩
    · simp [recordKeys] at hx
    · exact ⟨p, hp, hn, hq.1, hq.2.1⟩

/-- Witness for C8 on a concrete property array holding a surviving entry, an
empty-valued entry and a disabled entry. -/
theorem cssPropertiesToObject_spec_witness :
    ("color" ∈ ["color"]) ∧
    ∃ p ∈ [(⟨"color", "red", false⟩ : CSSProp), ⟨"margin", "", false⟩,
        ⟨"top", "1px", true⟩],
      p.name = "color" ∧ p.disabled = false ∧ p.value ≠ "" :=
  ⟨(cssPropertiesToObject_spec
      [⟨"color", "red", false⟩, ⟨"margin", "", false⟩, ⟨"top", "1px", true⟩]
      ["color"] "color").1 (by decide),
   (cssPropertiesToObject_spec
      [⟨"color", "red", false⟩, ⟨"margin", "", false⟩, ⟨"top", "1px", true⟩]
      ["color"] "color").2.1.mp (by decide)⟩

/-! ## C9: formatQuad corner-permutation invariance -/

theorem min_eq_or (a b : ℚ) : min a b = a ∨ min a b = b := by
  rcases le_total a b with h | h
  · exact Or.inl (min_eq_left h)
  · exact Or.inr (min_eq_right h)

theorem max_eq_or (a b : ℚ) : max a b = a ∨ max a b = b := by
  rcases le_total a b with h | h
  · exact Or.inr (max_eq_right h)
  · exact Or.inl (max_eq_left h)

theorem min4_mem (a b c d : ℚ) : min a (min b (min c d)) ∈ [a, b, c, d] := by
  rcases min_eq_or a (min b (min c d)) with h | h
  · rw [h]
    simp
  · rw [h]
    rcases min_eq_or b (min c d) with h2 | h2
    · rw [h2]
      simp
    · rw [h2]
      rcases min_eq_or c d with h3 | h3 <;> rw [h3] <;> simp

theorem max4_mem (a b c d : ℚ) : max a (max b (max c d)) ∈ [a, b, c, d] := by
  rcases max_eq_or a (max b (max c d)) with h | h
  · rw [h]
    simp
  · rw [h]
    rcases max_eq_or b (max c d) with h2 | h2
    · rw [h2]
      simp
    · rw [h2]
      rcases max_eq_or c d with h3 | h3 <;> rw [h3] <;> simp

theorem min4_lb (a b c d x : ℚ) (hx : x ∈ [a, b, c, d]) :
    min a (min b (min c d)) ≤ x := by
  simp at hx
  rcases hx with rfl | rfl | rfl | rfl
  · exact min_le_left _ _
  · exact (min_le_right _ _).trans (min_le_left _ _)
  · exact (min_le_right _ _).trans ((min_le_right _ _).trans (min_le_left _ _))
  · exact (min_le_right _ _).trans ((min_le_right _ _).trans (min_le_right _ _))

theorem max4_ub (a b c d x : ℚ) (hx : x ∈ [a, b, c, d]) :
    x ≤ max a (max b (max c d)) := by
  simp at hx
  rcases hx with rfl | rfl | rfl | rfl
  · exact le_max_left _ _
  · exact (le_max_left _ _).trans (le_max_right _ _)
  · exact ((le_max_left _ _).trans (le_max_right _ _)).trans (le_max_right _ _)
  · exact ((le_max_right _ _).trans (le_max_right _ _)).trans (le_max_right _ _)

theorem min4_perm {a b c d a' b' c' d' : ℚ}
    (h : [a', b', c', d'].Perm [a, b, c, d]) :
    min a' (min b' (min c' d')) = min a (min b (min c d)) := by
  refine le_antisymm ?_ ?_
  · exact min4_lb a' b' c' d' _ (h.mem_iff.mpr (min4_mem a b c d))
  · exact min4_lb a b c d _ (h.mem_iff.mp (min4_mem a' b' c' d'))

theorem max4_perm {a b c d a' b' c' d' : ℚ}
    (h : [a', b', c', d'].Perm [a, b, c, d]) :
    max a' (max b' (max c' d')) = max a (max b (max c d)) := by
  refine le_antisymm ?_ ?_
  · exact max4_ub a b c d _ (h.mem_iff.mp (max4_mem a' b' c' d'))
  · exact max4_ub a' b' c' d' _ (h.mem_iff.mpr (max4_mem a b c d))

/-- C9: `formatQuad` is order-independent with respect to corner ordering:
for every quad of 4 corner points and every permutation of those points it
returns the same axis-aligned bounding rectangle. -/
theorem formatQuad_perm (p1 p2 p3 p4 q1 q2 q3 q4 : ℚ × ℚ)
    (h : [q1, q2, q3, q4].Perm [p1, p2, p3, p4]) :
    formatQuad (quadOf q1 q2 q3 q4) = formatQuad (quadOf p1 p2 p3 p4) := by
  have hx : [q1.1, q2.1, q3.1, q4.1].Perm [p1.1, p2.1, p3.1, p4.1] := by
    have hm := h.map Prod.fst
    simpa using hm
  have hy : [q1.2, q2.2, q3.2, q4.2].Perm [p1.2, p2.2, p3.2, p4.2] := by
    have hm := h.map Prod.snd
    simpa using hm
  have e1 : formatQuad (quadOf q1 q2 q3 q4) =
      ⟨min q1.1 (min q2.1 (min q3.1 q4.1)), min q1.2 (min q2.2 (min q3.2 q4.2)),
        max q1.1 (max q2.1 (max q3.1 q4.1)) - min q1.1 (min q2.1 (min q3.1 q4.1)),
        max q1.2 (max q2.2 (max q3.2 q4.2)) - min q1.2 (min q2.2 (min q3.2 q4.2))⟩ := rfl
  have e2 : formatQuad (quadOf p1 p2 p3 p4) =
      ⟨min p1.1 (min p2.1 (min p3.1 p4.1)), min p1.2 (min p2.2 (min p3.2 p4.2)),
        max p1.1 (max p2.1 (max p3.1 p4.1)) - min p1.1 (min p2.1 (min p3.1 p4.1)),
        max p1.2 (max p2.2 (max p3.2 p4.2)) - min p1.2 (min p2.2 (min p3.2 p4.2))⟩ := rfl
  rw [e1, e2, min4_perm hx, min4_perm hy, max4_perm hx, max4_perm hy]

/-- Witness for C9: swapping the first two corners of a concrete quad leaves
the bounding rectangle unchanged. -/
theorem formatQuad_perm_witness :
    formatQuad (quadOf (1, 2) (0, 0) (1, 0) (0, 2)) =
      formatQuad (quadOf (0, 0) (1, 2) (1, 0) (0, 2)) :=
  formatQuad_perm (0, 0) (1, 2) (1, 0) (0, 2) (1, 2) (0, 0) (1, 0) (0, 2)
    (List.Perm.swap (0, 0) (1, 2) [(1, 0), (0, 2)])

/-! ## C10: empty-string id/class attributes are reported as null -/

/-- C10: in the element-reporting tools (`inspect_element`, `query_selector`,
`search_dom`, `get_element_at_position`) an `id` or `class` attribute whose
value is the empty string is reported as `null`, exactly like an absent
attribute, so the two are indistinguishable in the output. -/
theorem elementIdClassName_empty_null (attrs : List String) :
    (List.lookup "id" (buildAttrMap attrs) = some "" →
      (elementIdClassName attrs).1 = none) ∧
    (List.lookup "id" (buildAttrMap attrs) = none →
      (elementIdClassName attrs).1 = none) ∧
    (List.lookup "class" (buildAttrMap attrs) = some "" →
      (elementIdClassName attrs).2 = none) ∧
    (List.lookup "class" (buildAttrMap attrs) = none →
      (elementIdClassName attrs).2 = none) := by
  refine ⟨?_, ?_, ?_, ?_⟩ <;> intro h <;> simp [elementIdClassName, jsOrNull, h]

/-- Witness for C10 on an element whose id and class attributes are both
present with empty-string values. -/
theorem elementIdClassName_empty_null_witness :
    (elementIdClassName ["id", "", "class", ""]).1 = none ∧
    (elementIdClassName ["id", "", "class", ""]).2 = none :=
  ⟨(elementIdClassName_empty_null ["id", "", "class", ""]).1 (by decide),
   (elementIdClassName_empty_null ["id", "", "class", ""]).2.2.1 (by decide)⟩

/-! ## C7: the tree walker is depth-bounded and prunes text/comment nodes -/

theorem forall_attach {α : Type} (l : List α) (P : α → Prop) :
    (∀ c ∈ l.attach, P c.1) ↔ ∀ c ∈ l, P c := by
  constructor
  · intro h c hc
    exact h ⟨c, hc⟩ (List.mem_attach l ⟨c, hc⟩)
  · intro h c _
    exact h c.1 c.2

theorem foldr_max_le_of (l : List Nat) (b : Nat) (h : ∀ x ∈ l, x ≤ b) :
    l.foldr max 0 ≤ b := by
  induction l with
  | nil => simp
  | cons a l ih =>
    rw [List.foldr_cons]
    exact max_le (h a (List.mem_cons.mpr (Or.inl rfl)))
      (ih fun x hx => h x (List.mem_cons.mpr (Or.inr hx)))

theorem treeHeight_none (tag : String) (i c : Option String) :
    treeHeight (.mk tag i c none) = 0 := by
  simp [treeHeight]

theorem treeHeight_some (tag : String) (i c : Option String)
    (cs : List TreeNode) :
    treeHeight (.mk tag i c (some cs)) = (cs.map treeHeight).foldr max 0 + 1 := by
  rw [treeHeight, List.attach_map_coe]

theorem childrenOk_none (tag : String) (i c : Option String) :
    childrenOk (.mk tag i c none) := by
  rw [childrenOk]
  trivial

theorem childrenOk_some_iff (tag : String) (i c : Option String)
    (cs : List TreeNode) :
    childrenOk (.mk tag i c (some cs)) ↔ cs ≠ [] ∧ ∀ t ∈ cs, childrenOk t := by
  rw [childrenOk, forall_attach]

theorem formatNode_bound (N : Nat) :
    ∀ (k : Nat) (n : DomNode), sizeOf n ≤ k → ∀ (d : Nat) (t : TreeNode),
      formatNode N n d = some t → treeHeight t + d ≤ N ∧ childrenOk t := by
  intro k
  induction k with
  | zero =>
    intro n hn
    exfalso
    cases n with
    | mk ty nm attrs cs => simp at hn
  | succ k ih =>
    intro n hn d t ht
    cases n with
    | mk ty nm attrs cs =>
      simp only [formatNode] at ht
      rw [List.attach_map_coe cs (fun c => formatNode N c (d + 1))] at ht
      by_cases h1 : N < d
      · rw [if_pos h1] at ht
        cases ht
      · rw [if_neg h1] at ht
        by_cases h2 : ty = 3 ∨ ty = 8
        · rw [if_pos h2] at ht
          cases ht
        · rw [if_neg h2] at ht
          have heq := Option.some.inj ht
          subst heq
          have hch : ∀ ch ∈ (if d < N then
              ((cs.map fun c => formatNode N c (d + 1)).filterMap id) else []),
              treeHeight ch + (d + 1) ≤ N ∧ childrenOk ch := by
            intro ch hc
            by_cases hdN : d < N
            · rw [if_pos hdN] at hc
              obtain ⟨o, ho, hoc⟩ := List.mem_filterMap.mp hc
              obtain ⟨c, hcm, rfl⟩ := List.mem_map.mp ho
              have hlt : sizeOf c < sizeOf cs := List.sizeOf_lt_of_mem hcm
              have hlt2 : sizeOf cs < sizeOf (DomNode.mk ty nm attrs cs) := by
                simp
              exact ih c (by omega) (d + 1) ch (by simpa using hoc)
            · rw [if_neg hdN] at hc
              cases hc
          by_cases hk : 0 < ((if d < N then
              ((cs.map fun c => formatNode N c (d + 1)).filterMap id) else []) :
                List TreeNode).length
          · rw [if_pos hk]
            have hdN : d < N := by
              by_contra hdd
              rw [if_neg hdd] at hk
              simp at hk
            constructor
            · rw [treeHeight_some]
              have hb : (((if d < N then
                  ((cs.map fun c => formatNode N c (d + 1)).filterMap id) else []) :
                    List TreeNode).map treeHeight).foldr max 0 ≤ N - d - 1 := by
                apply foldr_max_le_of
                intro x hx
                obtain ⟨ch, hch2, rfl⟩ := List.mem_map.mp hx
                have := (hch ch hch2).1
                omega
              omega
            · rw [childrenOk_some_iff]
              refine ⟨?_, fun ch hc => (hch ch hc).2⟩
              intro hnil
              rw [hnil] at hk
              simp at hk
          · rw [if_neg hk]
            exact ⟨by rw [treeHeight_none]; omega, childrenOk_none _ _ _⟩

theorem formatNode_surface (N : Nat) (n : DomNode) (d : Nat) (t : TreeNode)
    (h : formatNode N n d = some t) :
    t.tag = jsToLower n.nodeName ∧
    t.id = jsOrNull (List.lookup "id" (buildAttrMap n.attributes)) ∧
    t.cls = jsOrNull (List.lookup "class" (buildAttrMap n.attributes)) := by
  cases n with
  | mk ty nm attrs cs =>
    simp only [formatNode] at h
    by_cases h1 : N < d
    · rw [if_pos h1] at h
      cases h
    · rw [if_neg h1] at h
      by_cases h2 : ty = 3 ∨ ty = 8
      · rw [if_pos h2] at h
        cases h
      · rw [if_neg h2] at h
        have heq := Option.some.inj h
        subst heq
        exact ⟨rfl, rfl, rfl⟩

theorem formatNode_prunes (N : Nat) (n : DomNode) (d : Nat)
    (h : n.nodeType = 3 ∨ n.nodeType = 8) : formatNode N n d = none := by
  cases n with
  | mk ty nm attrs cs =>
    simp only [formatNode]
    by_cases h1 : N < d
    · rw [if_pos h1]
    · rw [if_neg h1, if_pos (by simpa [DomNode.nodeType] using h)]

/-- C7: for every requested depth N and input node tree, the formatted tree
has no node deeper than N below the root; text (3) and comment (8) nodes are
pruned and never appear as tag entries; only the id and class attributes are
projected into an output node; and pruned children are omitted, so every
`children` field present holds a non-empty list. -/
theorem formatNode_spec (N : Nat) (n : DomNode) (d : Nat) :
    (∀ t, formatNode N n d = some t →
      treeHeight t + d ≤ N ∧ childrenOk t ∧
      t.tag = jsToLower n.nodeName ∧
      t.id = jsOrNull (List.lookup "id" (buildAttrMap n.attributes)) ∧
      t.cls = jsOrNull (List.lookup "class" (buildAttrMap n.attributes))) ∧
    (n.nodeType = 3 ∨ n.nodeType = 8 → formatNode N n d = none) := by
  constructor
  · intro t ht
    obtain ⟨hh, hok⟩ := formatNode_bound N (sizeOf n) n le_rfl d t ht
    obtain ⟨ha, hb, hc⟩ := formatNode_surface N n d t ht
    exact ⟨hh, hok, ha, hb, hc⟩
  · exact formatNode_prunes N n d

/-- Witness for C7 at depth 1 on an uppercase DIV with id and class
attributes, a SPAN element child and a text child. -/
theorem formatNode_spec_witness :
    (treeHeight (.mk "div" (some "x") (some "c") (some [.mk "span" none none none])) + 0 ≤ 1 ∧
      childrenOk (.mk "div" (some "x") (some "c")
        (some [(.mk "span" none none none : TreeNode)])) ∧
      (TreeNode.mk "div" (some "x") (some "c")
        (some [.mk "span" none none none])).tag =
        jsToLower (DomNode.mk 1 "DIV" ["id", "x", "class", "c"]
          [.mk 1 "SPAN" [] [], .mk 3 "#text" [] []]).nodeName ∧
      (TreeNode.mk "div" (some "x") (some "c")
        (some [.mk "span" none none none])).id =
        jsOrNull (List.lookup "id" (buildAttrMap
          (DomNode.mk 1 "DIV" ["id", "x", "class", "c"]
            [.mk 1 "SPAN" [] [], .mk 3 "#text" [] []]).attributes)) ∧
      (TreeNode.mk "div" (some "x") (some "c")
        (some [.mk "span" none none none])).cls =
        jsOrNull (List.lookup "class" (buildAttrMap
          (DomNode.mk 1 "DIV" ["id", "x", "class", "c"]
            [.mk 1 "SPAN" [] [], .mk 3 "#text" [] []]).attributes))) ∧
    formatNode 1 (.mk 3 "#text" [] []) 0 = none := by
  constructor
  · apply (formatNode_spec 1 (.mk 1 "DIV" ["id", "x", "class", "c"]
      [.mk 1 "SPAN" [] [], .mk 3 "#text" [] []]) 0).1
    simp [formatNode, List.attach_map_coe, buildAttrMap, buildAttrMap.go,
      recordSet, jsOrNull, lookup_cons_self]
    decide
  · exact (formatNode_spec 1 (.mk 3 "#text" [] []) 0).2 (Or.inl rfl)

/-! ## C6: the comparator's differences/same partition and its symmetry -/

theorem mem_recordKeys_iff_lookup {α : Type} (r : List (String × α))
    (x : String) :
    x ∈ recordKeys r ↔ List.lookup x r ≠ none := by
  induction r with
  | nil => simp [recordKeys]
  | cons e r ih =>
    obtain ⟨ek, ev⟩ := e
    rw [recordKeys_cons]
    by_cases hx : x = ek
    · subst hx
      rw [lookup_cons_self]
      simp
    · rw [lookup_cons_ne hx, List.mem_cons]
      constructor
      · rintro (h | h)
        · exact absurd h hx
        · exact ih.mp h
      · intro h
        exact Or.inr (ih.mpr h)

theorem compareStep_fst (m1 m2 : String → String)
    (acc : List (String × (String × String)) × List String) (q : String) :
    (compareStep m1 m2 acc q).1 =
      if m1 q ≠ m2 q then recordSet acc.1 q (m1 q, m2 q) else acc.1 := by
  unfold compareStep
  by_cases hq : m1 q ≠ m2 q
  · rw [if_pos hq, if_pos hq]
  · rw [if_neg hq, if_neg hq]
    by_cases hv : m1 q ≠ ""
    · rw [if_pos hv]
    · rw [if_neg hv]

theorem compareStep_snd (m1 m2 : String → String)
    (acc : List (String × (String × String)) × List String) (q : String) :
    (compareStep m1 m2 acc q).2 =
      if m1 q ≠ m2 q then acc.2
      else if m1 q ≠ "" then acc.2 ++ [q] else acc.2 := by
  unfold compareStep
  by_cases hq : m1 q ≠ m2 q
  · rw [if_pos hq, if_pos hq]
  · rw [if_neg hq, if_neg hq]
    by_cases hv : m1 q ≠ ""
    · rw [if_pos hv, if_pos hv]
    · rw [if_neg hv, if_neg hv]

theorem compareLoop_lookup (props : List String) (m1 m2 : String → String)
    (acc : List (String × (String × String)) × List String) (p : String) :
    List.lookup p (props.foldl (compareStep m1 m2) acc).1 =
      if p ∈ props ∧ m1 p ≠ m2 p then some (m1 p, m2 p)
      else List.lookup p acc.1 := by
  induction props generalizing acc with
  | nil =>
    rw [List.foldl_nil, if_neg (fun h => List.not_mem_nil p h.1)]
  | cons q ps ih =>
    rw [List.foldl_cons, ih, compareStep_fst]
    by_cases hps : p ∈ ps ∧ m1 p ≠ m2 p
    · rw [if_pos hps, if_pos ⟨List.mem_cons.mpr (Or.inr hps.1), hps.2⟩]
    · rw [if_neg hps]
      by_cases hq : m1 q ≠ m2 q
      · rw [if_pos hq, lookup_recordSet]
        by_cases hpq : p = q
        · subst hpq
          rw [if_pos rfl, if_pos ⟨List.mem_cons.mpr (Or.inl rfl), hq⟩]
        · have hno : ¬ (p ∈ q :: ps ∧ m1 p ≠ m2 p) := by
            rintro ⟨hmem, hdiff⟩
            rcases List.mem_cons.mp hmem with h | h
            · exact hpq h
            · exact hps ⟨h, hdiff⟩
          rw [if_neg hpq, if_neg hno]
      · have hno : ¬ (p ∈ q :: ps ∧ m1 p ≠ m2 p) := by
          rintro ⟨hmem, hdiff⟩
          rcases List.mem_cons.mp hmem with h | h
          · exact hq (h ▸ hdiff)
          · exact hps ⟨h, hdiff⟩
        rw [if_neg hq, if_neg hno]

theorem compareLoop_same_mem (props : List String) (m1 m2 : String → String)
    (acc : List (String × (String × String)) × List String) (p : String) :
    p ∈ (props.foldl (compareStep m1 m2) acc).2 ↔
      p ∈ acc.2 ∨ (p ∈ props ∧ m1 p = m2 p ∧ m1 p ≠ "") := by
  induction props generalizing acc with
  | nil =>
    rw [List.foldl_nil]
    constructor
    · exact Or.inl
    · rintro (h | ⟨h, _⟩)
      · exact h
      · exact absurd h (List.not_mem_nil p)
  | cons q ps ih =>
    rw [List.foldl_cons, ih]
    have hstep : p ∈ (compareStep m1 m2 acc q).2 ↔
        p ∈ acc.2 ∨ (p = q ∧ m1 q = m2 q ∧ m1 q ≠ "") := by
      rw [compareStep_snd]
      by_cases hq : m1 q ≠ m2 q
      · rw [if_pos hq]
        constructor
        · exact Or.inl
        · rintro (h | ⟨rfl, heq, _⟩)
          · exact h
          · exact absurd heq hq
      · rw [if_neg hq]
        have heq : m1 q = m2 q := not_not.mp hq
        by_cases hv : m1 q ≠ ""
        · rw [if_pos hv, List.mem_append]
          simp only [List.mem_singleton]
          constructor
          · rintro (h | rfl)
            · exact Or.inl h
            · exact Or.inr ⟨rfl, heq, hv⟩
          · rintro (h | ⟨rfl, _, _⟩)
            · exact Or.inl h
            · exact Or.inr rfl
        · rw [if_neg hv]
          constructor
          · exact Or.inl
          · rintro (h | ⟨rfl, _, hne⟩)
            · exact h
            · exact absurd hne hv
    rw [hstep]
    constructor
    · rintro ((h | h) | ⟨hmem, hcond⟩)
      · exact Or.inl h
      · exact Or.inr ⟨List.mem_cons.mpr (Or.inl h.1), h.1 ▸ h.2.1, h.1 ▸ h.2.2⟩
      · exact Or.inr ⟨List.mem_cons.mpr (Or.inr hmem), hcond⟩
    · rintro (h | ⟨hmem, hcond⟩)
      · exact Or.inl (Or.inl h)
      · rcases List.mem_cons.mp hmem with rfl | h2
        · exact Or.inl (Or.inr ⟨rfl, hcond⟩)
        · exact Or.inr ⟨h2, hcond⟩

theorem compareLoop_same_swap (props : List String) (m1 m2 : String → String) :
    ∀ (acc acc' : List (String × (String × String)) × List String),
      acc.2 = acc'.2 →
      (props.foldl (compareStep m1 m2) acc).2 =
        (props.foldl (compareStep m2 m1) acc').2 := by
  induction props with
  | nil =>
    intro acc acc' h
    exact h
  | cons q ps ih =>
    intro acc acc' h
    rw [List.foldl_cons, List.foldl_cons]
    apply ih
    rw [compareStep_snd, compareStep_snd]
    by_cases hq : m1 q ≠ m2 q
    · rw [if_pos hq, if_pos (show m2 q ≠ m1 q from fun hh => hq hh.symm)]
      exact h
    · have heq : m1 q = m2 q := not_not.mp hq
      rw [if_neg hq, if_neg (show ¬ m2 q ≠ m1 q from fun hh => hh heq.symm)]
      by_cases hv : m1 q ≠ ""
      · rw [if_pos hv, if_pos (show m2 q ≠ "" from heq ▸ hv), h]
      · rw [if_neg hv, if_neg (show ¬ m2 q ≠ "" from heq ▸ hv)]
        exact h

/-- C6: for every compared property p (with each element's value normalized
to the empty string when absent), p is recorded under `differences` as the
pair of the two values exactly when they differ, p is in `same` exactly when
the values are equal and non-empty, and an equal-and-empty property appears
in neither; consequently swapping the two elements yields the same differing
key set with element1/element2 swapped, and the same `same` list. -/
theorem compareElements_spec (props : List String)
    (cs1 cs2 : List (String × String)) (p : String) :
    (List.lookup p (compareElements props cs1 cs2).1 =
      if p ∈ props ∧ normVal props cs1 p ≠ normVal props cs2 p
      then some (normVal props cs1 p, normVal props cs2 p) else none) ∧
    (p ∈ (compareElements props cs1 cs2).2 ↔
      p ∈ props ∧ normVal props cs1 p = normVal props cs2 p ∧
        normVal props cs1 p ≠ "") ∧
    (p ∈ recordKeys (compareElements props cs1 cs2).1 ↔
      p ∈ recordKeys (compareElements props cs2 cs1).1) ∧
    (∀ x y, List.lookup p (compareElements props cs1 cs2).1 = some (x, y) →
      List.lookup p (compareElements props cs2 cs1).1 = some (y, x)) ∧
    (compareElements props cs1 cs2).2 = (compareElements props cs2 cs1).2 := by
  have h12 := compareLoop_lookup props (normVal props cs1) (normVal props cs2)
    ([], []) p
  have h21 := compareLoop_lookup props (normVal props cs2) (normVal props cs1)
    ([], []) p
  rw [show List.lookup p (([], []) :
    List (String × (String × String)) × List String).1 = none from rfl] at h12 h21
  have hcond : (p ∈ props ∧ normVal props cs1 p ≠ normVal props cs2 p) ↔
      (p ∈ props ∧ normVal props cs2 p ≠ normVal props cs1 p) :=
    ⟨fun h => ⟨h.1, fun hh => h.2 hh.symm⟩, fun h => ⟨h.1, fun hh => h.2 hh.symm⟩⟩
  refine ⟨h12, ?_, ?_, ?_, ?_⟩
  · rw [show compareElements props cs1 cs2 =
        props.foldl (compareStep (normVal props cs1) (normVal props cs2)) ([], [])
        from rfl, compareLoop_same_mem]
    simp
  · rw [mem_recordKeys_iff_lookup, mem_recordKeys_iff_lookup,
      show compareElements props cs1 cs2 =
        props.foldl (compareStep (normVal props cs1) (normVal props cs2)) ([], [])
        from rfl,
      show compareElements props cs2 cs1 =
        props.foldl (compareStep (normVal props cs2) (normVal props cs1)) ([], [])
        from rfl,
      h12, h21]
    by_cases hc : p ∈ props ∧ normVal props cs1 p ≠ normVal props cs2 p
    · rw [if_pos hc, if_pos (hcond.mp hc)]
      simp
    · rw [if_neg hc, if_neg (fun hh => hc (hcond.mpr hh))]
  · intro x y hxy
    rw [show compareElements props cs1 cs2 =
        props.foldl (compareStep (normVal props cs1) (normVal props cs2)) ([], [])
        from rfl, h12] at hxy
    rw [show compareElements props cs2 cs1 =
        props.foldl (compareStep (normVal props cs2) (normVal props cs1)) ([], [])
        from rfl, h21]
    by_cases hc : p ∈ props ∧ normVal props cs1 p ≠ normVal props cs2 p
    · rw [if_pos hc] at hxy
      have hp := Option.some.inj hxy
      have hx : normVal props cs1 p = x := congrArg Prod.fst hp
      have hy : normVal props cs2 p = y := congrArg Prod.snd hp
      rw [if_pos (hcond.mp hc), hx, hy]
    · rw [if_neg hc] at hxy
      cases hxy
  · exact compareLoop_same_swap props (normVal props cs1) (normVal props cs2)
      ([], []) ([], []) rfl

/-- Witness for C6 on two concrete computed-style lists differing in color:
the differences entry appears with element1/element2 swapped when the
elements are swapped. -/
theorem compareElements_spec_witness :
    List.lookup "color" (compareElements ["color", "width"]
      [("color", "blue"), ("width", "10px")]
      [("color", "red"), ("width", "10px")]).1 = some ("blue", "red") :=
  (compareElements_spec ["color", "width"]
    [("color", "red"), ("width", "10px")]
    [("color", "blue"), ("width", "10px")] "color").2.2.2.1 "red" "blue"
    (by decide)

/-! ## C4: capture_dom_snapshot caps nodes but annotates only via the first
document -/

theorem snapDocStep_bound (strings : List String)
    (docs : List (Nat × SnapDocument)) (acc : List SnapDocOut)
    (hacc : ∀ d ∈ acc, d.nodes.length ≤ 50) :
    ∀ d ∈ docs.foldl (snapDocStep strings) acc, d.nodes.length ≤ 50 := by
  induction docs generalizing acc with
  | nil => exact hacc
  | cons p ps ih =>
    rw [List.foldl_cons]
    apply ih
    intro d hd
    cases hnn : p.2.nodes.nodeName with
    | none =>
      rw [show snapDocStep strings acc p = acc by unfold snapDocStep; rw [hnn]] at hd
      exact hacc d hd
    | some nodeNames =>
      rw [show snapDocStep strings acc p = acc ++
          [⟨p.1, (strings.get? p.2.documentURL).getD "", nodeNames.length,
            (snapCollect strings nodeNames p.2.nodes.attributes
              ((p.2.layout.bounds).getD [])).take 50⟩]
        by unfold snapDocStep; rw [hnn]] at hd
      rcases List.mem_append.mp hd with h | h
      · exact hacc d h
      · rcases List.mem_singleton.mp h with rfl
        show ((snapCollect strings nodeNames p.2.nodes.attributes
          ((p.2.layout.bounds).getD [])).take 50).length ≤ 50
        rw [List.length_take]
        exact min_le_left _ _

/-- C4 (amended): every emitted document of `capture_dom_snapshot` contains
at most 50 nodes; but the truncation note is attached exactly when the first
emitted document's raw node count exceeds 50, so a truncated later document
(or truncation invisible in the first document's raw count) is emitted with
no annotation. -/
theorem captureDomSnapshot_spec (snapshot : DOMSnapshotResult) :
    (∀ d ∈ (captureDomSnapshotFormat snapshot).documents,
      d.nodes.length ≤ 50) ∧
    ((captureDomSnapshotFormat snapshot).note ≠ none ↔
      ∃ d0, (captureDomSnapshotFormat snapshot).documents.head? = some d0 ∧
        50 < d0.nodeCount) := by
  constructor
  · intro d hd
    have hb := snapDocStep_bound snapshot.strings (snapshot.documents.enum) []
      (fun d hd => absurd hd (List.not_mem_nil d))
    exact hb d hd
  · show (match ((snapshot.documents.enum).foldl
        (snapDocStep snapshot.strings) []).head? with
      | some d => if 50 < d.nodeCount
          then some "Output limited to first 50 elements per document" else none
      | none => none) ≠ none ↔ _
    cases hh : ((snapshot.documents.enum).foldl
        (snapDocStep snapshot.strings) []).head? with
    | none =>
      show (none : Option String) ≠ none ↔
        ∃ d0, (captureDomSnapshotFormat snapshot).documents.head? = some d0 ∧
          50 < d0.nodeCount
      constructor
      · intro h
        exact absurd rfl h
      · rintro ⟨d0, hd0, _⟩
        rw [show (captureDomSnapshotFormat snapshot).documents.head? =
          ((snapshot.documents.enum).foldl
            (snapDocStep snapshot.strings) []).head? from rfl, hh] at hd0
        cases hd0
    | some d =>
      show (if 50 < d.nodeCount
          then some "Output limited to first 50 elements per document"
          else none) ≠ none ↔
        ∃ d0, (captureDomSnapshotFormat snapshot).documents.head? = some d0 ∧
          50 < d0.nodeCount
      rw [show (captureDomSnapshotFormat snapshot).documents.head? =
        ((snapshot.documents.enum).foldl
          (snapDocStep snapshot.strings) []).head? from rfl, hh]
      by_cases hc : 50 < d.nodeCount
      · rw [if_pos hc]
        constructor
        · intro _
          exact ⟨d, rfl, hc⟩
        · intro _ h
          cases h
      · rw [if_neg hc]
        constructor
        · intro h
          exact absurd rfl h
        · rintro ⟨d0, hd0, hgt⟩
          have := Option.some.inj hd0
          exact absurd (this ▸ hgt) hc

/-- C4, counterexample.  On a snapshot whose second document holds 51 element
nodes while the first holds one, the second emitted document is truncated to
50 of its 51 qualifying nodes, yet the output carries no annotation: the note
is driven only by the first document's raw node count. -/
theorem captureDomSnapshot_truncates_silently :
    ((captureDomSnapshotFormat snapshotCex).documents.get? 1).map
      (fun d => d.nodes.length) = some 50 ∧
    snapQualifying snapshotCex.strings (List.replicate 51 0) = 51 ∧
    (captureDomSnapshotFormat snapshotCex).note = none := by
  refine ⟨by decide, by decide, by decide⟩

/-- Witness for C4 at a one-document, one-node snapshot. -/
theorem captureDomSnapshot_spec_witness :
    (⟨0, "url", 1, [⟨0, "div", [], none⟩]⟩ : SnapDocOut).nodes.length ≤ 50 :=
  (captureDomSnapshot_spec snapshotWit).1 _ (by decide)

end ChromeMcp
